import Mathlib

/-!
Verification development for the `camillaresampler` sinc resampling library
(single source file `src/lib.rs`).

Modelling conventions:
* `f32`/`f64` values (sample values, ratios, the fractional cursor) are embedded
  as exact rationals `ℚ`; the filter-bank builder, which evaluates `sin`/`cos`,
  is embedded over the exact reals `ℝ`.
* The resampler structures are parameterised by the sample type `T` with a
  `Field` instance, mirroring the Rust generic `T: Float`; `ℚ` is used for
  executable runs, `ℝ` for the constructors (which build the trig filter bank).
* Rust `usize`/`isize` index casts are modelled exactly: `as usize` on an
  `isize` wraps modulo `2^64` (`intToUsize`), a float-to-`usize` cast truncates
  toward zero and clamps negatives to zero (`floatToUsize`).
* Out-of-bounds slice indexing (a Rust panic) is modelled by `Option`:
  `none` means the call aborts instead of returning; process results use
  `PRes`, whose `panic` constructor covers such aborted calls (including the
  non-terminating loop that a non-positive ratio would produce).
* Early `return Err(...)` happens before any mutation of `self`, so the
  functional model returns the unchanged state alongside the error.
-/

namespace Camilla

unseal Rat.add Rat.mul Rat.inv Rat.sub Rat.ofScientific

/-- Executable floor on `ℚ` (the `FloorRing` instance does not kernel-reduce);
`ratFloor_eq` identifies it with `⌊·⌋`. -/
def ratFloor (q : ℚ) : ℤ := q.num / (q.den : ℤ)

/-- Executable ceiling on `ℚ`; `ratCeil_eq` identifies it with `⌈·⌉`. -/
def ratCeil (q : ℚ) : ℤ := -ratFloor (-q)

theorem ratFloor_eq (q : ℚ) : ratFloor q = ⌊q⌋ := Rat.floor_def.symm

theorem ratCeil_eq (q : ℚ) : ratCeil q = ⌈q⌉ := by
  rw [ratCeil, ratFloor_eq, ← Int.ceil_neg, neg_neg]

/-- Rust `isize as usize` cast on a 64-bit target: wraps modulo `2^64`. -/
def intToUsize (i : ℤ) : ℕ := (i % (2:ℤ)^64).toNat

/-- Rust float-to-`usize` `as` cast: truncates toward zero, clamps negatives to 0. -/
def floatToUsize (q : ℚ) : ℕ := (ratFloor q).toNat

/-- Rust `f64::round`: rounds half away from zero. -/
def rustRound (q : ℚ) : ℤ := if 0 ≤ q then ratFloor (q + 1/2) else ratCeil (q - 1/2)

/-- `enum Interpolation` from the source. -/
inductive Interpolation : Type where
  | Cubic : Interpolation
  | Linear : Interpolation
  | Nearest : Interpolation
deriving DecidableEq

/-- The error messages produced through `ResamplerError::new`, as an enumeration:
`wrongNumberOfChannels` = "Wrong number of channels in input",
`wrongNumberOfFrames` = "Wrong number of frames in input",
`ratioOutOfBounds` = "New resample ratio is too far off from original". -/
inductive RErr : Type where
  | wrongNumberOfChannels : RErr
  | wrongNumberOfFrames : RErr
  | ratioOutOfBounds : RErr
deriving DecidableEq

/-- Result of a `process` call: a normal `Ok` return carrying the updated
resampler and the output, an `Err` return carrying the unchanged resampler,
or an abnormal end of the call (out-of-bounds panic / non-termination). -/
inductive PRes (σ : Type) (T : Type) : Type where
  | ok : σ → List (List T) → PRes σ T
  | err : RErr → σ → PRes σ T
  | panic : PRes σ T
deriving DecidableEq

def PRes.isErr {σ T : Type} : PRes σ T → Bool
  | .err _ _ => true
  | _ => false

def PRes.isOk {σ T : Type} : PRes σ T → Bool
  | .ok _ _ => true
  | _ => false

def exceptIsOk {ε α : Type} : Except ε α → Bool
  | .ok _ => true
  | .error _ => false

/-! ## Fractional-index math (`get_nearest_time*`, source lines 570-621) -/

/-- `get_nearest_time`: nearest `(index, subindex)` for time `t`. -/
def get_nearest_time (t : ℚ) (factor : ℤ) : ℤ × ℤ :=
  let index := ratFloor t
  let subindex := rustRound ((t - ratFloor t) * factor)
  if factor ≤ subindex then (index + 1, subindex - factor) else (index, subindex)

/-- `get_nearest_times_2`: the two bracketing `(index, subindex)` pairs. -/
def get_nearest_times_2 (t : ℚ) (factor : ℤ) : List (ℤ × ℤ) :=
  let index := ratFloor t
  let subindex := ratFloor ((t - ratFloor t) * factor)
  let s1 := subindex + 1
  [(index, subindex), if factor ≤ s1 then (index + 1, s1 - factor) else (index, s1)]

/-- One entry of the `get_nearest_times_4` loop body (offset `sub ∈ {-1,0,1,2}`). -/
def nearestTimes4Point (start frac factor sub : ℤ) : ℤ × ℤ :=
  let subindex := frac + sub
  if subindex < 0 then (start - 1, subindex + factor)
  else if factor ≤ subindex then (start + 1, subindex - factor)
  else (start, subindex)

/-- `get_nearest_times_4`: four pairs at sub-index offsets `-1, 0, +1, +2`. -/
def get_nearest_times_4 (t : ℚ) (factor : ℤ) : List (ℤ × ℤ) :=
  let start := ratFloor t
  let frac := ratFloor ((t - ratFloor t) * factor)
  [nearestTimes4Point start frac factor (-1), nearestTimes4Point start frac factor 0,
   nearestTimes4Point start frac factor 1, nearestTimes4Point start frac factor 2]

/-! ## Interpolators and the sinc kernel (source lines 539-568) -/

/-- `interp_cubic`: cubic through points at x = -1, 0, 1, 2, evaluated at `x`.
The single caller always passes exactly four points. -/
def interp_cubic {T : Type} [Field T] (x : T) (yvals : List T) : T :=
  let y0 := yvals.getD 0 0
  let y1 := yvals.getD 1 0
  let y2 := yvals.getD 2 0
  let y3 := yvals.getD 3 0
  let a0 := y1
  let a1 := -(1/3 : T) * y0 - (1/2 : T) * y1 + y2 - (1/6 : T) * y3
  let a2 := (1/2 : T) * (y0 + y2) - y1
  let a3 := (1/2 : T) * (y1 - y2) + (1/6 : T) * (y3 - y0)
  a0 + a1 * x + a2 * x^2 + a3 * x^3

/-- `interp_lin`: linear interpolation between two points at x = 0 and x = 1.
The single caller always passes exactly two points. -/
def interp_lin {T : Type} [Field T] (x : T) (yvals : List T) : T :=
  (1 - x) * yvals.getD 0 0 + x * yvals.getD 1 0

/-- `get_sinc_interpolated`: dot product of `sinc_len` consecutive samples
starting at `index` with the polyphase row `sincs[subindex]`. The iterator
`skip(index).take(len)` silently yields fewer elements past the end, but the
row access `sincs[subindex]` panics when out of bounds (`none`). -/
def get_sinc_interpolated {T : Type} [Field T] (wave : List T) (sincs : List (List T))
    (index subindex : ℕ) : Option T :=
  match sincs[subindex]? with
  | none => none
  | some s => some ((((wave.drop index).take s.length).zip s).foldl
      (fun acc p => acc + p.1 * p.2) 0)

/-! ## The resampler structures -/

/-- `struct SincFixedIn<T>`. -/
structure SincFixedIn (T : Type) : Type where
  nbr_channels : ℕ
  chunk_size : ℕ
  upsample_factor : ℕ
  last_index : ℚ
  resample_ratio : ℚ
  resample_ratio_original : ℚ
  sinc_len : ℕ
  sincs : List (List T)
  buffer : List (List T)
  interpolation : Interpolation
deriving DecidableEq

/-- `struct SincFixedOut<T>`. -/
structure SincFixedOut (T : Type) : Type where
  nbr_channels : ℕ
  chunk_size : ℕ
  needed_input_size : ℕ
  upsample_factor : ℕ
  last_index : ℚ
  current_buffer_fill : ℕ
  resample_ratio : ℚ
  resample_ratio_original : ℚ
  sinc_len : ℕ
  sincs : List (List T)
  buffer : List (List T)
  interpolation : Interpolation
deriving DecidableEq

/-! ## Buffer maintenance loops -/

/-- Write `w[i] := v`, panicking (`none`) when `i` is out of bounds. -/
def setChecked {T : Type} (w : List T) (i : ℕ) (v : T) : Option (List T) :=
  if i < w.length then some (w.set i v) else none

/-- Sequential `Option`-valued map, mirroring a `for` loop over channels. -/
def mapOpt {α β : Type} (f : α → Option β) : List α → Option (List β)
  | [] => some []
  | a :: l =>
    match f a with
    | none => none
    | some b =>
      match mapOpt f l with
      | none => none
      | some l2 => some (b :: l2)

/-- Carry slide, `k` writes remaining, next write at position `idx`:
`for idx in 0..2*sinc_len { wav[idx] = wav[idx + shift] }` (reads the current,
possibly already partially overwritten, contents, exactly as the source does). -/
def slideCarryAux {T : Type} (shift : ℕ) : ℕ → ℕ → List T → Option (List T)
  | _, 0, w => some w
  | idx, k+1, w =>
    match w[idx + shift]? with
    | none => none
    | some v =>
      match setChecked w idx v with
      | none => none
      | some w2 => slideCarryAux shift (idx+1) k w2

/-- The per-channel carry slide of `process`. `shift` is `chunk_size` for
`SincFixedIn` and `current_buffer_fill` for `SincFixedOut`. -/
def slideCarry {T : Type} (shift sinc_len : ℕ) (w : List T) : Option (List T) :=
  slideCarryAux shift 0 (2 * sinc_len) w

/-- Install fresh input samples:
`for (idx, sample) in wav { buffer[chan][idx + 2*sinc_len] = sample }`,
starting at enumeration index `idx`. -/
def installFresh {T : Type} (sinc_len : ℕ) : List T → ℕ → List T → Option (List T)
  | [], _, b => some b
  | sample :: rest, idx, b =>
    match setChecked b (idx + 2 * sinc_len) sample with
    | none => none
    | some b2 => installFresh sinc_len rest (idx+1) b2

/-- Install all channels' fresh input, channel counter `chan`:
`for (chan, wav) in wave_in { ... buffer[chan][..] = .. }`. -/
def installAllAux {T : Type} (sinc_len : ℕ) : ℕ → List (List T) → List (List T) →
    Option (List (List T))
  | _, [], bufs => some bufs
  | chan, wav :: rest, bufs =>
    match bufs[chan]? with
    | none => none
    | some b =>
      match installFresh sinc_len wav 0 b with
      | none => none
      | some b2 => installAllAux sinc_len (chan+1) rest (bufs.set chan b2)

def installAll {T : Type} (sinc_len : ℕ) (wave_in bufs : List (List T)) :
    Option (List (List T)) :=
  installAllAux sinc_len 0 wave_in bufs

/-! ## The driver loops -/

/-- One output point for one channel at cursor position `idx` (already stepped):
the 1/2/4 `(index, subindex)` pairs, the sinc dot products, and the sub-sample
interpolation, per the three `match self.interpolation` arms. -/
def computePoint {T : Type} [Field T] (itp : Interpolation) (upsample_factor sinc_len : ℕ)
    (sincs : List (List T)) (buf : List T) (idx : ℚ) : Option T :=
  match itp with
  | .Cubic =>
    let nearest := get_nearest_times_4 idx (upsample_factor : ℤ)
    let frac : ℚ := idx * (upsample_factor : ℚ) - ratFloor (idx * (upsample_factor : ℚ))
    match mapOpt (fun nr => get_sinc_interpolated buf sincs
        (intToUsize (nr.1 + 2 * (sinc_len : ℤ))) (intToUsize nr.2)) nearest with
    | none => none
    | some points => some (interp_cubic ((frac : ℚ) : T) points)
  | .Linear =>
    let nearest := get_nearest_times_2 idx (upsample_factor : ℤ)
    let frac : ℚ := idx * (upsample_factor : ℚ) - ratFloor (idx * (upsample_factor : ℚ))
    match mapOpt (fun nr => get_sinc_interpolated buf sincs
        (intToUsize (nr.1 + 2 * (sinc_len : ℤ))) (intToUsize nr.2)) nearest with
    | none => none
    | some points => some (interp_lin ((frac : ℚ) : T) points)
  | .Nearest =>
    let nr := get_nearest_time idx (upsample_factor : ℤ)
    get_sinc_interpolated buf sincs (intToUsize (nr.1 + 2 * (sinc_len : ℤ))) (intToUsize nr.2)

/-- The per-channel inner loop of one driver iteration, channel counter `chan`:
`for (chan, buf) in buffer { ...; wave_out[chan][n] = point }`. -/
def driveChans {T : Type} [Field T] (itp : Interpolation) (upsample_factor sinc_len : ℕ)
    (sincs : List (List T)) (idx : ℚ) (n : ℕ) :
    ℕ → List (List T) → List (List T) → Option (List (List T))
  | _, [], wout => some wout
  | chan, buf :: rest, wout =>
    match computePoint itp upsample_factor sinc_len sincs buf idx with
    | none => none
    | some v =>
      match wout[chan]? with
      | none => none
      | some row =>
        match setChecked row n v with
        | none => none
        | some row2 =>
          driveChans itp upsample_factor sinc_len sincs idx n (chan+1) rest (wout.set chan row2)

/-- The `SincFixedOut` driver: `for n in 0..chunk_size { idx += t_ratio; ... }`,
with `k` iterations remaining and `n` the current output frame. -/
def fixedOutLoopAux {T : Type} [Field T] (itp : Interpolation) (upsample_factor sinc_len : ℕ)
    (sincs buffer : List (List T)) (t_ratio : ℚ) :
    ℕ → ℕ → ℚ → List (List T) → Option (ℚ × List (List T))
  | _, 0, idx, wout => some (idx, wout)
  | n, k+1, idx, wout =>
    match driveChans itp upsample_factor sinc_len sincs (idx + t_ratio) n 0 buffer wout with
    | none => none
    | some w2 => fixedOutLoopAux itp upsample_factor sinc_len sincs buffer t_ratio
        (n+1) k (idx + t_ratio) w2

/-- Fuel that strictly dominates the number of iterations of the `SincFixedIn`
`while idx < end_idx` loop when `0 < t_ratio` (each iteration advances the
cursor by `t_ratio`). -/
def fixedInFuel (endIdx t_ratio idx : ℚ) : ℕ :=
  if 0 < t_ratio then (ratCeil ((endIdx - idx) / t_ratio)).toNat + 1 else 1

/-- The `SincFixedIn` driver: `while idx < end_idx { idx += t_ratio; ...; n += 1 }`.
Structured as fuel recursion; `process` supplies `fixedInFuel`, which is enough
fuel whenever `0 < t_ratio`, and the loop does not terminate in the source when
`t_ratio ≤ 0` and `idx < end_idx` (modelled by `none`). -/
def fixedInLoopAux {T : Type} [Field T] (itp : Interpolation) (upsample_factor sinc_len : ℕ)
    (sincs buffer : List (List T)) (endIdx t_ratio : ℚ) :
    ℕ → ℚ → ℕ → List (List T) → Option (ℚ × ℕ × List (List T))
  | 0, _, _, _ => none
  | fuel+1, idx, n, wout =>
    if idx < endIdx then
      if 0 < t_ratio then
        match driveChans itp upsample_factor sinc_len sincs (idx + t_ratio) n 0 buffer wout with
        | none => none
        | some w2 => fixedInLoopAux itp upsample_factor sinc_len sincs buffer endIdx t_ratio
            fuel (idx + t_ratio) (n+1) w2
      else none
    else some (idx, n, wout)

/-- Pure iteration count of the `while idx < end_idx` loop, same fuel recursion. -/
def whileStepsF : ℕ → ℚ → ℚ → ℚ → ℕ
  | 0, _, _, _ => 0
  | fuel+1, endIdx, t_ratio, idx =>
    if idx < endIdx ∧ 0 < t_ratio then whileStepsF fuel endIdx t_ratio (idx + t_ratio) + 1
    else 0

/-- Number of `t_ratio`-steps the `SincFixedIn` driver takes from `idx`. -/
def whileSteps (endIdx t_ratio idx : ℚ) : ℕ :=
  whileStepsF (fixedInFuel endIdx t_ratio idx) endIdx t_ratio idx

/-- Number of output frames a `process` call on `st` produces. -/
def fixedInSteps {T : Type} (st : SincFixedIn T) : ℕ :=
  whileSteps ((((st.chunk_size : ℤ) - ((st.sinc_len : ℤ) + 1)) : ℤ) : ℚ)
    (1 / st.resample_ratio) st.last_index

/-- The `SincFixedIn` output allocation:
`(chunk_size as f32 * resample_ratio + 10.0) as usize`. -/
def fixedInAlloc {T : Type} (st : SincFixedIn T) : ℕ :=
  floatToUsize ((st.chunk_size : ℚ) * st.resample_ratio + 10)

/-! ## `process` and `set_resample_ratio` -/

/-- `SincFixedIn::process` (source lines 141-248). -/
def SincFixedIn.process {T : Type} [Field T] (st : SincFixedIn T) (wave_in : List (List T)) :
    PRes (SincFixedIn T) T :=
  if wave_in.length ≠ st.nbr_channels then .err .wrongNumberOfChannels st
  else
    match wave_in[0]? with
    | none => .panic
    | some w0 =>
      if w0.length ≠ st.chunk_size then .err .wrongNumberOfFrames st
      else
        match mapOpt (slideCarry st.chunk_size st.sinc_len) st.buffer with
        | none => .panic
        | some buf1 =>
          match installAll st.sinc_len wave_in buf1 with
          | none => .panic
          | some buf2 =>
            match fixedInLoopAux st.interpolation st.upsample_factor st.sinc_len st.sincs buf2
                ((((st.chunk_size : ℤ) - ((st.sinc_len : ℤ) + 1)) : ℤ) : ℚ)
                (1 / st.resample_ratio)
                (fixedInFuel ((((st.chunk_size : ℤ) - ((st.sinc_len : ℤ) + 1)) : ℤ) : ℚ)
                  (1 / st.resample_ratio) st.last_index)
                st.last_index 0
                (List.replicate st.nbr_channels (List.replicate (fixedInAlloc st) 0)) with
            | none => .panic
            | some (idxF, n, wout) =>
              .ok { st with
                      buffer := buf2,
                      last_index := idxF - (st.chunk_size : ℚ) }
                (wout.map (fun w => w.take n))

/-- `SincFixedIn::set_resample_ratio` (source lines 251-262). -/
def SincFixedIn.set_resample_ratio {T : Type} (st : SincFixedIn T) (new_ratio : ℚ) :
    Except RErr Unit × SincFixedIn T :=
  if new_ratio / st.resample_ratio_original > 0.9 ∧
      new_ratio / st.resample_ratio_original < 1.1 then
    (Except.ok (), { st with resample_ratio := new_ratio })
  else
    (Except.error .ratioOutOfBounds, st)

/-- `SincFixedIn::nbr_frames_needed`. -/
def SincFixedIn.nbr_frames_needed {T : Type} (st : SincFixedIn T) : ℕ := st.chunk_size

/-- `SincFixedOut::process` (source lines 385-484). -/
def SincFixedOut.process {T : Type} [Field T] (st : SincFixedOut T) (wave_in : List (List T)) :
    PRes (SincFixedOut T) T :=
  if wave_in.length ≠ st.nbr_channels then .err .wrongNumberOfChannels st
  else
    match wave_in[0]? with
    | none => .panic
    | some w0 =>
      if w0.length ≠ st.needed_input_size then .err .wrongNumberOfFrames st
      else
        match mapOpt (slideCarry st.current_buffer_fill st.sinc_len) st.buffer with
        | none => .panic
        | some buf1 =>
          match installAll st.sinc_len wave_in buf1 with
          | none => .panic
          | some buf2 =>
            match fixedOutLoopAux st.interpolation st.upsample_factor st.sinc_len st.sincs buf2
                (1 / st.resample_ratio) 0 st.chunk_size st.last_index
                (List.replicate st.nbr_channels (List.replicate st.chunk_size 0)) with
            | none => .panic
            | some (idxF, wout) =>
              .ok { st with
                      buffer := buf2,
                      current_buffer_fill := w0.length,
                      last_index := idxF - (w0.length : ℚ),
                      needed_input_size := intToUsize ((st.needed_input_size : ℤ)
                        + rustRound (idxF - (w0.length : ℚ)) + (st.sinc_len : ℤ)) }
                wout

/-- `SincFixedOut::set_resample_ratio` (source lines 363-376). -/
def SincFixedOut.set_resample_ratio {T : Type} (st : SincFixedOut T) (new_ratio : ℚ) :
    Except RErr Unit × SincFixedOut T :=
  if new_ratio / st.resample_ratio_original > 0.9 ∧
      new_ratio / st.resample_ratio_original < 1.1 then
    (Except.ok (), { st with
                       resample_ratio := new_ratio,
                       needed_input_size := (ratCeil ((st.chunk_size : ℚ) / new_ratio)).toNat + 1 })
  else
    (Except.error .ratioOutOfBounds, st)

/-- `SincFixedOut::nbr_frames_needed`. -/
def SincFixedOut.nbr_frames_needed {T : Type} (st : SincFixedOut T) : ℕ := st.needed_input_size

/-! ## Filter bank builder (over the exact reals, source lines 487-537) -/

/-- `blackman_harris`: 4-term Blackman-Harris window on `[0, npoints)`. -/
noncomputable def blackman_harris (npoints : ℕ) : List ℝ :=
  (List.range npoints).map (fun x =>
    0.35875 - 0.48829 * Real.cos (2 * Real.pi * ((x : ℕ) : ℝ) / (npoints : ℝ))
      + 0.14128 * Real.cos (4 * Real.pi * ((x : ℕ) : ℝ) / (npoints : ℝ))
      - 0.01168 * Real.cos (6 * Real.pi * ((x : ℕ) : ℝ) / (npoints : ℝ)))

/-- `sinc(x) = sin(pi*x)/(pi*x)` with `sinc(0) = 1`. -/
noncomputable def sinc (v : ℝ) : ℝ :=
  if v = 0 then 1 else Real.sin (v * Real.pi) / (v * Real.pi)

/-- `make_sincs`: windowed sincs, de-interleaved into `factor` phases in
reverse order. The imperative fill `sincs[factor - n - 1][p] = y[factor*p + n]`
writes each cell exactly once; row `r` receives phase `n = factor - 1 - r`,
which is the comprehension below. -/
noncomputable def make_sincs (npoints factor : ℕ) (f_cutoff : ℝ) : List (List ℝ) :=
  let totpoints : ℤ := (npoints * factor : ℕ)
  let window := blackman_harris (npoints * factor)
  let y := (List.range (npoints * factor)).map (fun x =>
    window.getD x 0 * window.getD x 0
      * sinc ((((x : ℤ) - totpoints / 2 : ℤ) : ℝ) * f_cutoff / (factor : ℝ)))
  (List.range factor).map (fun r =>
    (List.range npoints).map (fun p => y.getD (factor * p + (factor - 1 - r)) 0))

/-- The cutoff actually passed to `make_sincs` by both constructors:
`if resample_ratio >= 0.0 { f_cutoff } else { f_cutoff * resample_ratio }`. -/
def sincCutoff (resample_ratio f_cutoff : ℚ) : ℚ :=
  if 0 ≤ resample_ratio then f_cutoff else f_cutoff * resample_ratio

/-- `SincFixedIn::new` (source lines 281-309), at the exact-real sample type. -/
noncomputable def SincFixedIn.new (resample_ratio : ℚ) (sinc_len : ℕ) (f_cutoff : ℚ)
    (upsample_factor : ℕ) (interpolation : Interpolation) (chunk_size nbr_channels : ℕ) :
    SincFixedIn ℝ :=
  { nbr_channels := nbr_channels,
    chunk_size := chunk_size,
    upsample_factor := upsample_factor,
    last_index := -(sinc_len : ℚ),
    resample_ratio := resample_ratio,
    resample_ratio_original := resample_ratio,
    sinc_len := sinc_len,
    sincs := make_sincs sinc_len upsample_factor ((sincCutoff resample_ratio f_cutoff : ℚ) : ℝ),
    buffer := List.replicate nbr_channels (List.replicate (chunk_size + 2 * sinc_len) 0),
    interpolation := interpolation }

/-- `SincFixedOut::new` (source lines 322-354), at the exact-real sample type.
`needed_input_size = (chunk_size / resample_ratio).ceil() as usize + 1`. -/
noncomputable def SincFixedOut.new (resample_ratio : ℚ) (sinc_len : ℕ) (f_cutoff : ℚ)
    (upsample_factor : ℕ) (interpolation : Interpolation) (chunk_size nbr_channels : ℕ) :
    SincFixedOut ℝ :=
  { nbr_channels := nbr_channels,
    chunk_size := chunk_size,
    needed_input_size := (ratCeil ((chunk_size : ℚ) / resample_ratio)).toNat + 1,
    upsample_factor := upsample_factor,
    last_index := -(sinc_len : ℚ),
    current_buffer_fill := (ratCeil ((chunk_size : ℚ) / resample_ratio)).toNat + 1,
    resample_ratio := resample_ratio,
    resample_ratio_original := resample_ratio,
    sinc_len := sinc_len,
    sincs := make_sincs sinc_len upsample_factor ((sincCutoff resample_ratio f_cutoff : ℚ) : ℝ),
    buffer := List.replicate nbr_channels
      (List.replicate (3 * ((ratCeil ((chunk_size : ℚ) / resample_ratio)).toNat + 1) / 2 + 2 * sinc_len) 0),
    interpolation := interpolation }

/-! ## Concrete states used as witnesses and counterexamples -/

/-- A two-channel `SincFixedIn` over `ℚ` (chunk 1, sinc_len 1, ratio 1). -/
def stA : SincFixedIn ℚ :=
  { nbr_channels := 2,
    chunk_size := 1,
    upsample_factor := 1,
    last_index := -1,
    resample_ratio := 1,
    resample_ratio_original := 1,
    sinc_len := 1,
    sincs := [[0]],
    buffer := [[0, 0, 0], [0, 0, 0]],
    interpolation := .Nearest }

/-- A one-channel `SincFixedOut` over `ℚ` (chunk 1, sinc_len 1, ratio 1). -/
def stB : SincFixedOut ℚ :=
  { nbr_channels := 1,
    chunk_size := 1,
    needed_input_size := 1,
    upsample_factor := 1,
    last_index := -1,
    current_buffer_fill := 1,
    resample_ratio := 1,
    resample_ratio_original := 1,
    sinc_len := 1,
    sincs := [[0]],
    buffer := [[0, 0, 0]],
    interpolation := .Nearest }

/-- A two-channel variant of `stB`. -/
def stB2 : SincFixedOut ℚ :=
  { stB with nbr_channels := 2, buffer := [[0, 0, 0], [0, 0, 0]] }

/-- A `SincFixedIn` with `chunk_size * resample_ratio` non-integral
(chunk 5, ratio 1/2). -/
def stC : SincFixedIn ℚ :=
  { stA with chunk_size := 5, resample_ratio := 1/2, resample_ratio_original := 1/2,
             buffer := [[0, 0, 0, 0, 0, 0, 0], [0, 0, 0, 0, 0, 0, 0]] }

/-- A `SincFixedOut` whose `needed_input_size` (4) exceeds the fresh capacity of
its buffer (rows of length 5 with sinc_len 1: capacity 3 fresh frames). -/
def stOv : SincFixedOut ℚ :=
  { stB with needed_input_size := 4, current_buffer_fill := 2,
             buffer := [[0, 0, 0, 0, 0]] }

/-- A zero-channel `SincFixedIn` over `ℚ`. -/
def stZeroIn : SincFixedIn ℚ :=
  { stA with nbr_channels := 0, sincs := [], buffer := [] }

/-- A zero-channel `SincFixedOut` over `ℚ`. -/
def stZeroOut : SincFixedOut ℚ :=
  { stB with nbr_channels := 0, sincs := [], buffer := [] }

/-! ## Basic bounds on the fractional part -/

theorem sub_floor_nonneg (t : ℚ) : 0 ≤ t - ⌊t⌋ := by
  have := Int.floor_le t; linarith

theorem sub_floor_lt_one (t : ℚ) : t - ⌊t⌋ < 1 := by
  have := Int.lt_floor_add_one t; linarith

theorem floor_mul_factor_bounds (t : ℚ) (F : ℤ) (hF : 0 < F) :
    0 ≤ ⌊(t - ⌊t⌋) * (F : ℚ)⌋ ∧ ⌊(t - ⌊t⌋) * (F : ℚ)⌋ < F := by
  have hF' : (0 : ℚ) < (F : ℚ) := by exact_mod_cast hF
  constructor
  · exact Int.floor_nonneg.mpr (mul_nonneg (sub_floor_nonneg t) hF'.le)
  · apply Int.floor_lt.mpr
    have h1 : (t - ⌊t⌋) * (F : ℚ) < 1 * (F : ℚ) :=
      mul_lt_mul_of_pos_right (sub_floor_lt_one t) hF'
    simpa using h1

theorem round_mul_factor_bounds (t : ℚ) (F : ℤ) (hF : 0 < F) :
    0 ≤ rustRound ((t - ⌊t⌋) * (F : ℚ)) ∧ rustRound ((t - ⌊t⌋) * (F : ℚ)) ≤ F := by
  have hF' : (0 : ℚ) < (F : ℚ) := by exact_mod_cast hF
  have hx0 : 0 ≤ (t - ⌊t⌋) * (F : ℚ) := mul_nonneg (sub_floor_nonneg t) hF'.le
  have hxF : (t - ⌊t⌋) * (F : ℚ) < (F : ℚ) := by
    have h1 : (t - ⌊t⌋) * (F : ℚ) < 1 * (F : ℚ) :=
      mul_lt_mul_of_pos_right (sub_floor_lt_one t) hF'
    simpa using h1
  unfold rustRound
  rw [if_pos hx0, ratFloor_eq]
  constructor
  · exact Int.floor_nonneg.mpr (by linarith)
  · have h2 : ⌊(t - ⌊t⌋) * (F : ℚ) + 1/2⌋ < F + 1 := by
      apply Int.floor_lt.mpr
      push_cast
      linarith
    omega

theorem nearestTimes4Point_bounds (start frac F sub : ℤ) (hf0 : 0 ≤ frac) (hfF : frac < F)
    (hs1 : -1 ≤ sub) (hs2 : sub ≤ 2) (hF : 2 ≤ F) :
    0 ≤ (nearestTimes4Point start frac F sub).2 ∧ (nearestTimes4Point start frac F sub).2 < F := by
  unfold nearestTimes4Point
  dsimp only
  split_ifs <;> constructor <;> omega

/-! ## C6: sub-index range of the fractional-index functions -/

/-- C6 counterexample: at `F = 1` (a legal factor, `F ≥ 1`), the fourth pair of
`get_nearest_times_4 0 1` is `(1, 1)`: its subindex equals `F`, so it is not in
`[0, F)` as the claim asserts for every `F ≥ 1`. -/
theorem get_nearest_times_4_factor_one_out_of_range :
    (get_nearest_times_4 0 1).getD 3 (0, 0) = (1, 1)
      ∧ (1 : ℤ) ≤ ((get_nearest_times_4 0 1).getD 3 (0, 0)).2 := by decide

/-- C6 amended: every subindex returned by `get_nearest_time` and
`get_nearest_times_2` lies in `[0, F)` for every factor `F ≥ 1`, and every
subindex returned by `get_nearest_times_4` lies in `[0, F)` for every factor
`F ≥ 2`; indices are unconstrained. At `F = 1`, `get_nearest_times_4` can
return subindex `1 = F` (offset `+2` is only reduced by one carry). -/
theorem subindex_in_range (t : ℚ) (F : ℤ) :
    (1 ≤ F → 0 ≤ (get_nearest_time t F).2 ∧ (get_nearest_time t F).2 < F)
  ∧ (1 ≤ F → ∀ p ∈ get_nearest_times_2 t F, 0 ≤ p.2 ∧ p.2 < F)
  ∧ (2 ≤ F → ∀ p ∈ get_nearest_times_4 t F, 0 ≤ p.2 ∧ p.2 < F) := by
  refine ⟨fun hF => ?_, fun hF => ?_, fun hF => ?_⟩
  · have hb := round_mul_factor_bounds t F (by omega)
    unfold get_nearest_time
    simp only [ratFloor_eq]
    split_ifs <;> constructor <;> omega
  · have hb := floor_mul_factor_bounds t F (by omega)
    unfold get_nearest_times_2
    simp only [ratFloor_eq]
    intro p hp
    simp only [List.mem_cons, List.not_mem_nil, or_false] at hp
    rcases hp with h | h
    · subst h; constructor <;> omega
    · subst h; split_ifs <;> constructor <;> omega
  · have hb := floor_mul_factor_bounds t F (by omega)
    unfold get_nearest_times_4
    simp only [ratFloor_eq]
    intro p hp
    simp only [List.mem_cons, List.not_mem_nil, or_false] at hp
    rcases hp with h | h | h | h <;> subst h <;>
      exact nearestTimes4Point_bounds _ _ _ _ hb.1 hb.2 (by omega) (by omega) hF

/-- C6 witness: a concrete instance of the amended range property. -/
theorem subindex_in_range_witness :
    ((1 : ℤ) ≤ 8)
  ∧ (0 ≤ (get_nearest_time (11/2 : ℚ) 8).2 ∧ (get_nearest_time (11/2 : ℚ) 8).2 < 8) :=
  ⟨by decide, (subindex_in_range (11/2) 8).1 (by decide)⟩

/-! ## C1: the resample-ratio band -/

/-- C1: `set_resample_ratio(r)` returns `Ok` iff `0.9 < r/original < 1.1`
(strict, against the original ratio), for both resamplers; on failure the whole
state (including `needed_input_size` for `SincFixedOut`) is unchanged. -/
theorem set_resample_ratio_band {T : Type} [Field T]
    (a : SincFixedIn T) (b : SincFixedOut T) (r : ℚ) :
    (exceptIsOk (a.set_resample_ratio r).1 = true ↔
      0.9 < r / a.resample_ratio_original ∧ r / a.resample_ratio_original < 1.1)
  ∧ (exceptIsOk (a.set_resample_ratio r).1 = false → (a.set_resample_ratio r).2 = a)
  ∧ (exceptIsOk (b.set_resample_ratio r).1 = true ↔
      0.9 < r / b.resample_ratio_original ∧ r / b.resample_ratio_original < 1.1)
  ∧ (exceptIsOk (b.set_resample_ratio r).1 = false → (b.set_resample_ratio r).2 = b) := by
  unfold SincFixedIn.set_resample_ratio SincFixedOut.set_resample_ratio
  refine ⟨?_, ?_, ?_, ?_⟩ <;> split_ifs with h <;> simp_all [exceptIsOk, gt_iff_lt]

/-- C1 witness: a concrete out-of-band update is rejected with state unchanged. -/
theorem set_resample_ratio_band_witness :
    exceptIsOk (stA.set_resample_ratio 2).1 = false ∧ (stA.set_resample_ratio 2).2 = stA :=
  ⟨by decide, (set_resample_ratio_band stA stB 2).2.1 (by decide)⟩

/-! ## C2: only channel 0's frame count is validated -/

/-- C2 counterexample: `stA` needs 1 frame per channel; the input's channel 1
has 0 frames (wrong), channel 0 has 1 frame (right), the channel count matches,
yet `process` does not return an error (it runs to completion). -/
theorem process_ignores_other_channel_lengths :
    [[(0 : ℚ)], []].length = stA.nbr_channels
  ∧ ([[(0 : ℚ)], []].getD 1 []).length = 0
  ∧ stA.chunk_size = 1
  ∧ (stA.process [[(0 : ℚ)], []]).isErr = false
  ∧ (stA.process [[(0 : ℚ)], []]).isOk = true := by decide

/-- C2 amended: `process` validates the frame count of channel 0 only. If
channel 0's length differs from the needed input length, both resamplers return
the wrong-number-of-frames error with the state unchanged; other channels'
lengths are never checked. -/
theorem process_frame_check_channel0 {T : Type} [Field T]
    (a : SincFixedIn T) (b : SincFixedOut T) (win : List (List T)) (w0 : List T)
    (h0 : win[0]? = some w0)
    (hca : win.length = a.nbr_channels) (hla : w0.length ≠ a.chunk_size)
    (hcb : win.length = b.nbr_channels) (hlb : w0.length ≠ b.nbr_frames_needed) :
    a.process win = .err .wrongNumberOfFrames a
  ∧ b.process win = .err .wrongNumberOfFrames b := by
  rw [SincFixedOut.nbr_frames_needed] at hlb
  constructor
  · unfold SincFixedIn.process
    simp [h0, hca, hla]
  · unfold SincFixedOut.process
    simp [h0, hcb, hlb]

/-- C2 witness: a concrete short channel-0 input is rejected, state unchanged. -/
theorem process_frame_check_channel0_witness :
    ([] : List ℚ).length = 0
  ∧ stA.chunk_size = 1
  ∧ stA.process [[], []] = .err .wrongNumberOfFrames stA
  ∧ stB2.process [[], []] = .err .wrongNumberOfFrames stB2 :=
  ⟨rfl, rfl,
    (process_frame_check_channel0 stA stB2 [[], []] [] (by decide) (by decide) (by decide)
      (by decide) (by decide)).1,
    (process_frame_check_channel0 stA stB2 [[], []] [] (by decide) (by decide) (by decide)
      (by decide) (by decide)).2⟩

/-! ## C7: `sinc_len` is not rounded at construction -/

/-- C7 counterexample: constructing with `sinc_len = 10` (not a multiple of 8)
stores the tap count 10 unchanged in both resamplers. -/
theorem new_sinc_len_not_rounded :
    (SincFixedIn.new 1 10 0.95 4 .Nearest 32 2).sinc_len = 10
  ∧ (SincFixedOut.new 1 10 0.95 4 .Nearest 32 2).sinc_len = 10
  ∧ 10 % 8 = 2 := ⟨rfl, rfl, rfl⟩

/-- C7 amended: both constructors use the caller's `sinc_len` exactly as
passed — no rounding to a multiple of 8 — for the stored tap count, the filter
bank, and the buffers. -/
theorem new_sinc_len_as_passed (r : ℚ) (sl : ℕ) (fc : ℚ) (F : ℕ)
    (itp : Interpolation) (ch nc : ℕ) :
    (SincFixedIn.new r sl fc F itp ch nc).sinc_len = sl
  ∧ (SincFixedIn.new r sl fc F itp ch nc).sincs
      = make_sincs sl F ((sincCutoff r fc : ℚ) : ℝ)
  ∧ (SincFixedIn.new r sl fc F itp ch nc).buffer
      = List.replicate nc (List.replicate (ch + 2 * sl) 0)
  ∧ (SincFixedOut.new r sl fc F itp ch nc).sinc_len = sl
  ∧ (SincFixedOut.new r sl fc F itp ch nc).sincs
      = make_sincs sl F ((sincCutoff r fc : ℚ) : ℝ) :=
  ⟨rfl, rfl, rfl, rfl, rfl⟩

/-! ## C8: the downsampling cutoff is never scaled -/

/-- C8: at the failing input `resample_ratio = 1/2 < 1`, `f_cutoff = 19/20`,
the guard `resample_ratio >= 0.0` holds, so the cutoff passed to the filter
bank is the unscaled `19/20`, not `19/40` as the claim requires; the scaled
branch is unreachable for positive ratios. -/
theorem sinc_cutoff_unscaled_for_downsampling :
    sincCutoff (1/2) (19/20) = 19/20
  ∧ (1/2 : ℚ) * (19/20) = 19/40
  ∧ decide ((19/20 : ℚ) = 19/40) = false
  ∧ (SincFixedIn.new (1/2) 16 (19/20) 4 .Nearest 8 1).sincs
      = make_sincs 16 4 ((19/20 : ℚ) : ℝ) := by
  refine ⟨by decide, by decide, by decide, ?_⟩
  have h : sincCutoff (1/2) (19/20) = 19/20 := by decide
  show make_sincs 16 4 ((sincCutoff (1/2) (19/20) : ℚ) : ℝ) = _
  rw [h]

/-! ## C9: zero channels passes the channel check and hits `wave_in[0]` -/

/-- C9: for a resampler with `nbr_channels = 0` and an empty input list, the
channel-count check passes and both `process` implementations then index
`wave_in[0]`, which is out of bounds: the call aborts, it does not return an
error value. -/
theorem process_zero_channels_panics {T : Type} [Field T]
    (a : SincFixedIn T) (b : SincFixedOut T)
    (ha : a.nbr_channels = 0) (hb : b.nbr_channels = 0) :
    a.process [] = .panic ∧ b.process [] = .panic := by
  unfold SincFixedIn.process SincFixedOut.process
  simp [ha, hb]

/-- C9 witness: concrete zero-channel resamplers. -/
theorem process_zero_channels_panics_witness :
    stZeroIn.nbr_channels = 0 ∧ stZeroOut.nbr_channels = 0
  ∧ stZeroIn.process [] = .panic ∧ stZeroOut.process [] = .panic :=
  ⟨rfl, rfl, (process_zero_channels_panics stZeroIn stZeroOut rfl rfl).1,
    (process_zero_channels_panics stZeroIn stZeroOut rfl rfl).2⟩

/-! ## C5: the filter-bank table -/

theorem getD_range_map {α : Type} (m : ℕ) (f : ℕ → α) (i : ℕ) (d : α) (hi : i < m) :
    ((List.range m).map f).getD i d = f i := by
  simp [List.getD_eq_getElem?_getD, List.getElem?_map, List.getElem?_range, hi]

/-- General indexing identity for `make_sincs`:
`sincs[factor - 1 - n][p] = y[factor * p + n]` with
`y[x] = w[x]^2 * sinc((x - N/2) * cutoff / factor)`. -/
theorem make_sincs_entry (npoints factor : ℕ) (cutoff : ℝ) (p n : ℕ)
    (hp : p < npoints) (hn : n < factor) :
    ((make_sincs npoints factor cutoff).getD (factor - 1 - n) []).getD p 0
      = (blackman_harris (npoints * factor)).getD (factor * p + n) 0
        * (blackman_harris (npoints * factor)).getD (factor * p + n) 0
        * sinc (((((factor * p + n : ℕ) : ℤ) - ((npoints * factor : ℕ) : ℤ) / 2 : ℤ) : ℝ)
            * cutoff / (factor : ℝ)) := by
  have hbound : factor * p + n < npoints * factor := by
    have h1 : factor * (p + 1) ≤ factor * npoints := Nat.mul_le_mul_left factor hp
    have h2 : factor * (p + 1) = factor * p + factor := by ring
    have h3 : factor * npoints = npoints * factor := Nat.mul_comm factor npoints
    omega
  unfold make_sincs
  rw [getD_range_map factor _ (factor - 1 - n) [] (by omega)]
  rw [getD_range_map npoints _ p 0 hp]
  have hnn : factor - 1 - (factor - 1 - n) = n := by omega
  rw [hnn]
  rw [getD_range_map (npoints * factor) _ (factor * p + n) 0 hbound]

/-- The centre of the Blackman-Harris window of length 64 is exactly 1
(the four coefficients sum to 1 and the cosines evaluate at `π`, `2π`, `3π`). -/
theorem blackman_harris_64_centre : (blackman_harris 64).getD 32 0 = 1 := by
  unfold blackman_harris
  rw [getD_range_map 64 _ 32 0 (by norm_num)]
  have h1 : 2 * Real.pi * ((32 : ℕ) : ℝ) / ((64 : ℕ) : ℝ) = Real.pi := by push_cast; ring
  have h2 : 4 * Real.pi * ((32 : ℕ) : ℝ) / ((64 : ℕ) : ℝ) = 2 * Real.pi := by push_cast; ring
  have h3 : 6 * Real.pi * ((32 : ℕ) : ℝ) / ((64 : ℕ) : ℝ) = Real.pi + 2 * Real.pi := by
    push_cast; ring
  rw [h1, h2, h3, Real.cos_pi, Real.cos_two_pi, Real.cos_add_two_pi, Real.cos_pi]
  norm_num

/-- C5: `make_sincs` builds `y[x] = w[x]^2 * sinc((x - N/2) * cutoff / factor)`
over the Blackman-Harris window `w`, de-interleaved in reverse phase order as
`sincs[factor - 1 - n][p] = y[factor * p + n]`, and the centre tap of the
zero-offset phase of `make_sincs 16 4 1` equals exactly 1. -/
theorem make_sincs_table (npoints factor : ℕ) (cutoff : ℝ) (p n : ℕ)
    (hp : p < npoints) (hn : n < factor) :
    (((make_sincs npoints factor cutoff).getD (factor - 1 - n) []).getD p 0
      = (blackman_harris (npoints * factor)).getD (factor * p + n) 0
        * (blackman_harris (npoints * factor)).getD (factor * p + n) 0
        * sinc (((((factor * p + n : ℕ) : ℤ) - ((npoints * factor : ℕ) : ℤ) / 2 : ℤ) : ℝ)
            * cutoff / (factor : ℝ)))
  ∧ ((make_sincs 16 4 1).getD 3 []).getD 8 0 = 1 := by
  constructor
  · exact make_sincs_entry npoints factor cutoff p n hp hn
  · have h := make_sincs_entry 16 4 1 8 0 (by norm_num) (by norm_num)
    rw [show (4 - 1 - 0 : ℕ) = 3 from rfl, show (4 * 8 + 0 : ℕ) = 32 from rfl,
        show (16 * 4 : ℕ) = 64 from rfl] at h
    rw [h, blackman_harris_64_centre]
    have hz : (((((32 : ℕ) : ℤ) - ((64 : ℕ) : ℤ) / 2 : ℤ)) : ℝ) * 1 / ((4 : ℕ) : ℝ) = 0 := by
      norm_num
    rw [hz]
    unfold sinc
    norm_num

/-- C5 witness: the indexing identity applied at the centre tap. -/
theorem make_sincs_table_witness :
    (8 < 16 ∧ 0 < 4) ∧ ((make_sincs 16 4 1).getD 3 []).getD 8 0 = 1 :=
  ⟨⟨by norm_num, by norm_num⟩, (make_sincs_table 16 4 1 8 0 (by norm_num) (by norm_num)).2⟩

/-! ## Shape lemmas for the buffer and driver loops -/

theorem setChecked_length {T : Type} {w w2 : List T} {i : ℕ} {v : T}
    (h : setChecked w i v = some w2) : w2.length = w.length := by
  unfold setChecked at h
  split at h
  · cases h; simp
  · cases h

theorem slideCarryAux_length {T : Type} (shift : ℕ) :
    ∀ (k idx : ℕ) (w w2 : List T), slideCarryAux shift idx k w = some w2 →
      w2.length = w.length := by
  intro k
  induction k with
  | zero => intro idx w w2 h; cases h; rfl
  | succ k ih =>
    intro idx w w2 h
    unfold slideCarryAux at h
    split at h
    · cases h
    · rename_i v hv
      split at h
      · cases h
      · rename_i w1 hw1
        have := ih (idx + 1) w1 w2 h
        rw [this, setChecked_length hw1]

theorem installFresh_length {T : Type} (s : ℕ) :
    ∀ (inp : List T) (idx : ℕ) (b b2 : List T), installFresh s inp idx b = some b2 →
      b2.length = b.length := by
  intro inp
  induction inp with
  | nil => intro idx b b2 h; cases h; rfl
  | cons a rest ih =>
    intro idx b b2 h
    unfold installFresh at h
    split at h
    · cases h
    · rename_i b1 hb1
      have := ih (idx + 1) b1 b2 h
      rw [this, setChecked_length hb1]

theorem mapOpt_lengths {T : Type} (f : List T → Option (List T))
    (hf : ∀ r r2, f r = some r2 → r2.length = r.length) :
    ∀ (rows rows2 : List (List T)), mapOpt f rows = some rows2 →
      rows2.map List.length = rows.map List.length := by
  intro rows
  induction rows with
  | nil => intro rows2 h; cases h; rfl
  | cons r rest ih =>
    intro rows2 h
    unfold mapOpt at h
    split at h
    · cases h
    · rename_i r2 hr2
      split at h
      · cases h
      · rename_i rest2 hrest2
        cases h
        simp [hf r r2 hr2, ih rest2 hrest2]

theorem map_length_set {T : Type} :
    ∀ (bufs : List (List T)) (chan : ℕ) (b b2 : List T), bufs[chan]? = some b →
      b2.length = b.length →
      (bufs.set chan b2).map List.length = bufs.map List.length := by
  intro bufs
  induction bufs with
  | nil => intro chan b b2 h _; simp at h
  | cons x rest ih =>
    intro chan b b2 h hl
    cases chan with
    | zero =>
      simp only [List.getElem?_cons_zero, Option.some_inj] at h
      subst h
      simp [hl]
    | succ c =>
      simp only [List.getElem?_cons_succ] at h
      simp [ih c b b2 h hl]

theorem installAllAux_map_length {T : Type} (s : ℕ) :
    ∀ (wavs : List (List T)) (chan : ℕ) (bufs bufs2 : List (List T)),
      installAllAux s chan wavs bufs = some bufs2 →
      bufs2.map List.length = bufs.map List.length := by
  intro wavs
  induction wavs with
  | nil => intro chan bufs bufs2 h; cases h; rfl
  | cons w rest ih =>
    intro chan bufs bufs2 h
    unfold installAllAux at h
    split at h
    · cases h
    · rename_i b hb
      split at h
      · cases h
      · rename_i b2 hb2
        have h1 := ih (chan + 1) (bufs.set chan b2) bufs2 h
        rw [h1, map_length_set bufs chan b b2 hb (installFresh_length s w 0 b b2 hb2)]

theorem driveChans_map_length {T : Type} [Field T] (itp : Interpolation) (F s : ℕ)
    (sincs : List (List T)) (idx : ℚ) (n : ℕ) :
    ∀ (rest : List (List T)) (chan : ℕ) (wout wout2 : List (List T)),
      driveChans itp F s sincs idx n chan rest wout = some wout2 →
      wout2.map List.length = wout.map List.length := by
  intro rest
  induction rest with
  | nil => intro chan wout wout2 h; cases h; rfl
  | cons buf bufrest ih =>
    intro chan wout wout2 h
    unfold driveChans at h
    split at h
    · cases h
    · rename_i v hv
      split at h
      · cases h
      · rename_i row hrow
        split at h
        · cases h
        · rename_i row2 hrow2
          have h1 := ih (chan + 1) (wout.set chan row2) wout2 h
          rw [h1, map_length_set wout chan row row2 hrow (setChecked_length hrow2)]

theorem fixedOutLoopAux_shape {T : Type} [Field T] (itp : Interpolation) (F s : ℕ)
    (sincs buffer : List (List T)) (t : ℚ) :
    ∀ (k n : ℕ) (idx : ℚ) (wout : List (List T)) (idxF : ℚ) (wout2 : List (List T)),
      fixedOutLoopAux itp F s sincs buffer t n k idx wout = some (idxF, wout2) →
      wout2.map List.length = wout.map List.length := by
  intro k
  induction k with
  | zero => intro n idx wout idxF wout2 h; cases h; rfl
  | succ k ih =>
    intro n idx wout idxF wout2 h
    unfold fixedOutLoopAux at h
    split at h
    · cases h
    · rename_i w2 hw2
      have h1 := ih (n + 1) (idx + t) w2 idxF wout2 h
      rw [h1, driveChans_map_length itp F s sincs (idx + t) n buffer 0 wout w2 hw2]

theorem fixedInLoopAux_spec {T : Type} [Field T] (itp : Interpolation) (F s : ℕ)
    (sincs buffer : List (List T)) (e t : ℚ) :
    ∀ (fuel : ℕ) (idx : ℚ) (n : ℕ) (wout : List (List T)) (idxF : ℚ) (nF : ℕ)
      (woutF : List (List T)),
      fixedInLoopAux itp F s sincs buffer e t fuel idx n wout = some (idxF, nF, woutF) →
      nF = n + whileStepsF fuel e t idx
      ∧ idxF = idx + (whileStepsF fuel e t idx : ℚ) * t
      ∧ woutF.map List.length = wout.map List.length
      ∧ ¬ idxF < e := by
  intro fuel
  induction fuel with
  | zero => intro idx n wout idxF nF woutF h; cases h
  | succ fuel ih =>
    intro idx n wout idxF nF woutF h
    unfold fixedInLoopAux at h
    split at h
    · rename_i hlt
      split at h
      · rename_i ht
        split at h
        · cases h
        · rename_i w2 hw2
          obtain ⟨h1, h2, h3, h4⟩ := ih (idx + t) (n + 1) w2 idxF nF woutF h
          have hs : whileStepsF (fuel + 1) e t idx = whileStepsF fuel e t (idx + t) + 1 := by
            simp only [whileStepsF]
            rw [if_pos ⟨hlt, ht⟩]
          refine ⟨by omega, ?_, ?_, h4⟩
          · rw [hs, h2]
            push_cast
            ring
          · rw [h3, driveChans_map_length itp F s sincs (idx + t) n buffer 0 wout w2 hw2]
      · cases h
    · rename_i hge
      cases h
      have hs : whileStepsF (fuel + 1) e t idx = 0 := by
        simp only [whileStepsF]
        rw [if_neg (by tauto)]
      refine ⟨by omega, ?_, rfl, hge⟩
      rw [hs]
      push_cast
      ring

theorem whileStepsF_le (e t : ℚ) (ht : 0 < t) :
    ∀ (fuel : ℕ) (idx : ℚ), whileStepsF fuel e t idx ≤ (⌈(e - idx) / t⌉).toNat := by
  intro fuel
  induction fuel with
  | zero => intro idx; simp [whileStepsF]
  | succ fuel ih =>
    intro idx
    unfold whileStepsF
    split
    · rename_i hc
      have hlt : idx < e := hc.1
      have hx : 0 < (e - idx) / t := div_pos (by linarith) ht
      have hc1 : 0 < ⌈(e - idx) / t⌉ := Int.ceil_pos.mpr hx
      have heq : (e - (idx + t)) / t = (e - idx) / t - 1 := by
        field_simp
        ring
      have hceq : ⌈(e - (idx + t)) / t⌉ = ⌈(e - idx) / t⌉ - 1 := by
        rw [heq, Int.ceil_sub_one]
      have h2 := ih (idx + t)
      rw [hceq] at h2
      omega
    · omega

/-! ## Inverting a successful `process` -/

theorem fixedOut_process_ok_inv {T : Type} [Field T] {st : SincFixedOut T}
    {win : List (List T)} {st' : SincFixedOut T} {out : List (List T)}
    (h : st.process win = .ok st' out) :
    ∃ (w0 : List T) (buf1 buf2 : List (List T)) (idxF : ℚ),
      win[0]? = some w0
      ∧ w0.length = st.needed_input_size
      ∧ mapOpt (slideCarry st.current_buffer_fill st.sinc_len) st.buffer = some buf1
      ∧ installAll st.sinc_len win buf1 = some buf2
      ∧ fixedOutLoopAux st.interpolation st.upsample_factor st.sinc_len st.sincs buf2
          (1 / st.resample_ratio) 0 st.chunk_size st.last_index
          (List.replicate st.nbr_channels (List.replicate st.chunk_size 0)) = some (idxF, out)
      ∧ st' = { st with
                  buffer := buf2,
                  current_buffer_fill := w0.length,
                  last_index := idxF - (w0.length : ℚ),
                  needed_input_size := intToUsize ((st.needed_input_size : ℤ)
                    + rustRound (idxF - (w0.length : ℚ)) + (st.sinc_len : ℤ)) } := by
  unfold SincFixedOut.process at h
  split at h
  · cases h
  · split at h
    · cases h
    · rename_i w0 hw0
      split at h
      · cases h
      · rename_i hlen
        push_neg at hlen
        split at h
        · cases h
        · rename_i buf1 hbuf1
          split at h
          · cases h
          · rename_i buf2 hbuf2
            split at h
            · cases h
            · rename_i idxF wout hloop
              injection h with h1 h2
              subst h1
              subst h2
              exact ⟨w0, buf1, buf2, idxF, hw0, hlen, hbuf1, hbuf2, hloop, rfl⟩

theorem fixedIn_process_ok_inv {T : Type} [Field T] {st : SincFixedIn T}
    {win : List (List T)} {st' : SincFixedIn T} {out : List (List T)}
    (h : st.process win = .ok st' out) :
    ∃ (w0 : List T) (buf1 buf2 : List (List T)) (idxF : ℚ) (n : ℕ) (wout : List (List T)),
      win[0]? = some w0
      ∧ w0.length = st.chunk_size
      ∧ mapOpt (slideCarry st.chunk_size st.sinc_len) st.buffer = some buf1
      ∧ installAll st.sinc_len win buf1 = some buf2
      ∧ fixedInLoopAux st.interpolation st.upsample_factor st.sinc_len st.sincs buf2
          ((((st.chunk_size : ℤ) - ((st.sinc_len : ℤ) + 1)) : ℤ) : ℚ) (1 / st.resample_ratio)
          (fixedInFuel ((((st.chunk_size : ℤ) - ((st.sinc_len : ℤ) + 1)) : ℤ) : ℚ)
            (1 / st.resample_ratio) st.last_index)
          st.last_index 0
          (List.replicate st.nbr_channels (List.replicate (fixedInAlloc st) 0))
          = some (idxF, n, wout)
      ∧ st' = { st with buffer := buf2, last_index := idxF - (st.chunk_size : ℚ) }
      ∧ out = wout.map (fun w => w.take n) := by
  unfold SincFixedIn.process at h
  split at h
  · cases h
  · split at h
    · cases h
    · rename_i w0 hw0
      split at h
      · cases h
      · rename_i hlen
        push_neg at hlen
        split at h
        · cases h
        · rename_i buf1 hbuf1
          split at h
          · cases h
          · rename_i buf2 hbuf2
            split at h
            · cases h
            · rename_i idxF n wout hloop
              injection h with h1 h2
              subst h1
              subst h2
              exact ⟨w0, buf1, buf2, idxF, n, wout, hw0, hlen, hbuf1, hbuf2, hloop, rfl, rfl⟩

/-! ## C3: `SincFixedOut::process` output shape -/

/-- C3: every successful `SincFixedOut::process` call returns exactly
`nbr_channels` output vectors, each of length exactly `chunk_size` (the driver
runs exactly `chunk_size` iterations in every interpolation mode, writing one
frame per iteration). -/
theorem fixed_out_output_shape {T : Type} [Field T] (st st' : SincFixedOut T)
    (win out : List (List T)) (h : st.process win = .ok st' out) :
    out.length = st.nbr_channels ∧ ∀ row ∈ out, row.length = st.chunk_size := by
  obtain ⟨w0, buf1, buf2, idxF, _, _, _, _, hloop, _⟩ := fixedOut_process_ok_inv h
  have hshape := fixedOutLoopAux_shape st.interpolation st.upsample_factor st.sinc_len
    st.sincs buf2 (1 / st.resample_ratio) st.chunk_size 0 st.last_index
    (List.replicate st.nbr_channels (List.replicate st.chunk_size 0)) idxF out hloop
  rw [List.map_replicate, List.length_replicate] at hshape
  constructor
  · have hlen := congrArg List.length hshape
    simpa using hlen
  · intro row hrow
    have hm : row.length ∈ out.map List.length := List.mem_map_of_mem List.length hrow
    rw [hshape] at hm
    exact List.eq_of_mem_replicate hm

/-- C3 witness: a concrete successful `SincFixedOut::process` call. -/
theorem fixed_out_output_shape_witness :
    stB.process [[(0 : ℚ)]] = .ok stB [[0]]
  ∧ ([[(0 : ℚ)]] : List (List ℚ)).length = stB.nbr_channels :=
  ⟨by decide, (fixed_out_output_shape stB stB [[(0 : ℚ)]] [[0]] (by decide)).1⟩

/-! ## C4: the `SincFixedIn` driver loop -/

/-- C4 counterexample: the pre-allocated output size is
`trunc(chunk_size * ratio + 10)`, not `ceil(chunk_size * ratio) + 10` as the
claim states: at `chunk_size = 5`, `ratio = 1/2` the code allocates 12 frames,
the claimed estimate is 13. -/
theorem fixed_in_alloc_truncates :
    fixedInAlloc stC = 12
  ∧ (⌈(stC.chunk_size : ℚ) * stC.resample_ratio⌉).toNat + 10 = 13 := by
  constructor
  · decide
  · have h1 : stC.chunk_size = 5 := rfl
    have h2 : stC.resample_ratio = 1/2 := rfl
    rw [h1, h2]
    have h3 : ⌈((5 : ℕ) : ℚ) * (1 / 2 : ℚ)⌉ = 3 := by
      have h4 : ((5 : ℕ) : ℚ) * (1 / 2 : ℚ) = 5 / 2 := by norm_num
      rw [h4, Int.ceil_eq_iff]
      constructor <;> norm_num
    rw [h3]
    rfl

/-- C4 amended: with `0 < ratio` and the cursor invariant
`-(sinc_len + 1) ≤ last_index` (true initially, where `last_index = -sinc_len`,
and re-established by every successful call, as the last conjunct shows), the
driver steps the cursor by `t = 1/ratio` while `idx < chunk_size - (sinc_len + 1)`,
the step count is at most `ceil(chunk_size * ratio) + 10` and at most the
actual allocation `trunc(chunk_size * ratio + 10)` (so every output write is in
bounds), each channel's output is truncated to exactly the step count, and the
final cursor is `last_index + steps * t - chunk_size`. -/
theorem fixed_in_driver_spec {T : Type} [Field T] (st : SincFixedIn T)
    (h1 : 0 < st.resample_ratio)
    (h2 : -((st.sinc_len : ℚ) + 1) ≤ st.last_index) :
    fixedInSteps st ≤ (⌈(st.chunk_size : ℚ) * st.resample_ratio⌉).toNat + 10
  ∧ fixedInSteps st ≤ fixedInAlloc st
  ∧ ∀ (win out : List (List T)) (st' : SincFixedIn T), st.process win = .ok st' out →
      (∀ row ∈ out, row.length = fixedInSteps st)
      ∧ st'.last_index = st.last_index + (fixedInSteps st : ℚ) * (1 / st.resample_ratio)
          - (st.chunk_size : ℚ)
      ∧ -((st.sinc_len : ℚ) + 1) ≤ st'.last_index := by
  set e : ℚ := ((((st.chunk_size : ℤ) - ((st.sinc_len : ℤ) + 1)) : ℤ) : ℚ) with he
  set t : ℚ := 1 / st.resample_ratio with ht_def
  have ht : 0 < t := by
    rw [ht_def]
    positivity
  have hE : e = (st.chunk_size : ℚ) - ((st.sinc_len : ℚ) + 1) := by
    rw [he]
    push_cast
    ring
  have hsteps : fixedInSteps st = whileStepsF (fixedInFuel e t st.last_index) e t st.last_index :=
    rfl
  have hle : fixedInSteps st ≤ (⌈(e - st.last_index) / t⌉).toNat := by
    rw [hsteps]
    exact whileStepsF_le e t ht _ st.last_index
  have hprod : (e - st.last_index) / t ≤ (st.chunk_size : ℚ) * st.resample_ratio := by
    rw [ht_def, div_div_eq_mul_div, div_one]
    have hsub : e - st.last_index ≤ (st.chunk_size : ℚ) := by
      rw [hE]
      linarith
    exact mul_le_mul_of_nonneg_right hsub h1.le
  have hceil : ⌈(e - st.last_index) / t⌉ ≤ ⌈(st.chunk_size : ℚ) * st.resample_ratio⌉ :=
    Int.ceil_le_ceil hprod
  have hfl0 : 0 ≤ ⌊(st.chunk_size : ℚ) * st.resample_ratio⌋ :=
    Int.floor_nonneg.mpr (by positivity)
  have halloc : fixedInAlloc st = (⌊(st.chunk_size : ℚ) * st.resample_ratio⌋ + 10).toNat := by
    unfold fixedInAlloc floatToUsize
    rw [ratFloor_eq]
    congr 1
    have h10 : ((10 : ℕ) : ℚ) = 10 := by norm_num
    rw [← h10, Int.floor_add_nat]
    norm_num
  have hcf : ⌈(st.chunk_size : ℚ) * st.resample_ratio⌉
      ≤ ⌊(st.chunk_size : ℚ) * st.resample_ratio⌋ + 1 :=
    Int.ceil_le_floor_add_one _
  refine ⟨by omega, by omega, ?_⟩
  intro win out st' h
  obtain ⟨w0, buf1, buf2, idxF, n, wout, _, _, _, _, hloop, hst', hout⟩ :=
    fixedIn_process_ok_inv h
  obtain ⟨hn, hidxF, hshape, hexit⟩ := fixedInLoopAux_spec st.interpolation st.upsample_factor
    st.sinc_len st.sincs buf2 e t (fixedInFuel e t st.last_index) st.last_index 0
    (List.replicate st.nbr_channels (List.replicate (fixedInAlloc st) 0)) idxF n wout hloop
  rw [List.map_replicate, List.length_replicate] at hshape
  have hn' : n = fixedInSteps st := by
    rw [hsteps]
    omega
  refine ⟨?_, ?_, ?_⟩
  · intro row hrow
    rw [hout] at hrow
    obtain ⟨w, hw, hweq⟩ := List.mem_map.mp hrow
    have hm : w.length ∈ wout.map List.length := List.mem_map_of_mem List.length hw
    rw [hshape] at hm
    have hwlen : w.length = fixedInAlloc st := List.eq_of_mem_replicate hm
    rw [← hweq, List.length_take, hwlen, hn']
    omega
  · rw [hst']
    simp only
    rw [hidxF, ← hsteps]
  · rw [hst']
    simp only
    have hidxFe : ¬ idxF < e := hexit
    rw [hE] at hidxFe
    push_neg at hidxFe
    linarith

/-- C4 witness: a concrete in-range state. -/
theorem fixed_in_driver_spec_witness :
    (0 < stA.resample_ratio ∧ -((stA.sinc_len : ℚ) + 1) ≤ stA.last_index)
  ∧ fixedInSteps stA ≤ fixedInAlloc stA :=
  ⟨⟨by decide, by decide⟩, (fixed_in_driver_spec stA (by decide) (by decide)).2.1⟩

/-! ## C10: the `SincFixedOut` buffer is never resized while the needed input
size moves -/

theorem slideCarry_length {T : Type} (shift s : ℕ) (w w2 : List T)
    (h : slideCarry shift s w = some w2) : w2.length = w.length :=
  slideCarryAux_length shift (2 * s) 0 w w2 h

theorem installFresh_isSome {T : Type} (s : ℕ) :
    ∀ (inp : List T) (idx : ℕ) (b : List T),
      ((installFresh s inp idx b).isSome = true) ↔
        (inp.length = 0 ∨ idx + inp.length + 2 * s ≤ b.length) := by
  intro inp
  induction inp with
  | nil => intro idx b; simp [installFresh]
  | cons a rest ih =>
    intro idx b
    unfold installFresh
    rcases hsc : setChecked b (idx + 2 * s) a with _ | b2 <;> dsimp only
    · have hge : b.length ≤ idx + 2 * s := by
        by_contra hlt
        push_neg at hlt
        unfold setChecked at hsc
        rw [if_pos hlt] at hsc
        cases hsc
      simp only [Option.isSome_none, Bool.false_eq_true, false_iff, List.length_cons]
      omega
    · have hlt : idx + 2 * s < b.length := by
        by_contra hge
        push_neg at hge
        unfold setChecked at hsc
        rw [if_neg (by omega)] at hsc
        cases hsc
      have hlen : b2.length = b.length := setChecked_length hsc
      rw [ih (idx + 1) b2, hlen]
      simp only [List.length_cons]
      omega

/-- C10: the `SincFixedOut` buffer is sized once, at construction, to
`3 * initial_needed_input_size / 2 + 2 * sinc_len` rows (with
`initial_needed_input_size = ceil(chunk_size / ratio) + 1`); `process` never
changes any row's length; `needed_input_size` is recomputed by
`set_resample_ratio` and updated after every `process`; the fresh-input writes
of `process` stay inside a row of the constructed length if and only if the
current `needed_input_size` is at most `3 * initial_needed_input_size / 2`; and
no code path checks this bound: a `SincFixedOut` whose `needed_input_size` (4)
exceeds its fresh capacity (3) accepts the input and aborts on the
out-of-bounds write instead of returning an error. -/
theorem fixed_out_buffer_capacity {T : Type} [Field T]
    (st st' : SincFixedOut T) (win out : List (List T))
    (b : SincFixedOut T) (r2 : ℚ)
    (r : ℚ) (sl : ℕ) (fc : ℚ) (F : ℕ) (itp : Interpolation) (ch nc : ℕ)
    (s init need : ℕ) (inp w : List T)
    (hw : w.length = 3 * init / 2 + 2 * s) (hi : inp.length = need)
    (hok : st.process win = .ok st' out) :
    ((SincFixedOut.new r sl fc F itp ch nc).needed_input_size
        = (ratCeil ((ch : ℚ) / r)).toNat + 1
      ∧ (SincFixedOut.new r sl fc F itp ch nc).buffer
        = List.replicate nc (List.replicate
            (3 * ((ratCeil ((ch : ℚ) / r)).toNat + 1) / 2 + 2 * sl) 0))
  ∧ st'.buffer.map List.length = st.buffer.map List.length
  ∧ st'.needed_input_size = intToUsize ((st.needed_input_size : ℤ)
      + rustRound st'.last_index + (st.sinc_len : ℤ))
  ∧ (exceptIsOk (b.set_resample_ratio r2).1 = true →
      (b.set_resample_ratio r2).2.needed_input_size
        = (ratCeil ((b.chunk_size : ℚ) / r2)).toNat + 1)
  ∧ ((installFresh s inp 0 w).isSome = true ↔ need ≤ 3 * init / 2)
  ∧ stOv.process [[0, 0, 0, 0]] = .panic := by
  obtain ⟨w0, buf1, buf2, idxF, hw0, hw0len, hbuf1, hbuf2, hloop, hst'⟩ :=
    fixedOut_process_ok_inv hok
  refine ⟨⟨rfl, rfl⟩, ?_, ?_, ?_, ?_, by decide⟩
  · rw [hst']
    simp only
    have h1 : buf1.map List.length = st.buffer.map List.length :=
      mapOpt_lengths _ (fun rr rr2 hrr => slideCarry_length _ _ rr rr2 hrr) _ _ hbuf1
    have h2 : buf2.map List.length = buf1.map List.length :=
      installAllAux_map_length st.sinc_len win 0 buf1 buf2 hbuf2
    rw [h2, h1]
  · rw [hst']
  · intro hOk
    unfold SincFixedOut.set_resample_ratio at hOk ⊢
    split_ifs at hOk ⊢ with hcond
    · rfl
    · simp [exceptIsOk] at hOk
  · rw [installFresh_isSome s inp 0 w, hw, hi]
    omega

/-- C10 witness. -/
theorem fixed_out_buffer_capacity_witness :
    ([(0 : ℚ), 0, 0, 0, 0].length = 3 * 2 / 2 + 2 * 1)
  ∧ ([(0 : ℚ), 0, 0].length = 3)
  ∧ (stB.process [[(0 : ℚ)]] = .ok stB [[0]])
  ∧ ((installFresh 1 [(0 : ℚ), 0, 0] 0 [0, 0, 0, 0, 0]).isSome = true ↔ 3 ≤ 3 * 2 / 2) :=
  ⟨by decide, by decide, by decide,
    (fixed_out_buffer_capacity stB stB [[(0 : ℚ)]] [[0]] stB 1 1 1 1 1 .Nearest 1 1 1 2 3
      [0, 0, 0] [0, 0, 0, 0, 0] (by decide) (by decide) (by decide)).2.2.2.2.1⟩

end Camilla
